import Mathlib

/-!
Verification of the ZenFocus focus-timer page (`src/main.js`): the Pomodoro
countdown timer state machine, the time display formatting, the IndexedDB-backed
image store, and the localStorage-backed to-do list, each shallowly embedded as
pure Lean functions over explicit state.
-/

namespace ZenFocus

/-! ## Timer state machine (`class PomodoroTimer`)

The mutable fields of `PomodoroTimer` that the timer logic reads or writes:
`timeLeft`, `originalTime` (JS numbers, embedded as `Int`), `isRunning`, the
scheduled interval (embedded as the flag `intervalActive`: `setInterval`
schedules it, `clearInterval` cancels it), plus the DOM text the methods write
(`startBtnText` for `startBtn.textContent`, `stateLabel` for
`timerState.textContent`).  `alerts` counts the `alert('Time is up!')` calls so
completion notifications can be observed.  `updateDisplay` writes no timer
state, so it has no counterpart on `TimerState`.
-/

structure TimerState where
  timeLeft : Int
  originalTime : Int
  isRunning : Bool
  intervalActive : Bool
  startBtnText : String
  stateLabel : String
  alerts : Nat
deriving Repr, DecidableEq

/-- Embeds `PomodoroTimer.pauseTimer`: clears the running flag, sets the button
text to Start, and cancels the interval (`clearInterval`). -/
def pauseTimer (s : TimerState) : TimerState :=
  { s with isRunning := false, startBtnText := "Start", intervalActive := false }

/-- Embeds `PomodoroTimer.startTimer`: a no-op when already running, otherwise
sets the running flag, the button text, and schedules the interval. -/
def startTimer (s : TimerState) : TimerState :=
  if s.isRunning then s
  else { s with isRunning := true, startBtnText := "Pause", intervalActive := true }

/-- Embeds `PomodoroTimer.completeTimer`: pauses, fires the completion alert,
and restores `timeLeft = originalTime`. -/
def completeTimer (s : TimerState) : TimerState :=
  let s1 := pauseTimer s
  let s2 := { s1 with alerts := s1.alerts + 1 }
  { s2 with timeLeft := s2.originalTime }

/-- Embeds one firing of the `setInterval` callback in `startTimer`:
decrement `timeLeft`, then complete when `timeLeft <= 0`. -/
def tick (s : TimerState) : TimerState :=
  let s1 := { s with timeLeft := s.timeLeft - 1 }
  if s1.timeLeft ≤ 0 then completeTimer s1 else s1

/-- Embeds `PomodoroTimer.setTime(minutes)`: pause, set
`originalTime = minutes * 60`, copy it to `timeLeft`, and set the state label
(Focus for more than 15 minutes, else Break). -/
def setTime (minutes : Nat) (s : TimerState) : TimerState :=
  let s1 := pauseTimer s
  let s2 := { s1 with originalTime := (minutes : Int) * 60 }
  let s3 := { s2 with timeLeft := s2.originalTime }
  { s3 with stateLabel := if 15 < minutes then "Focus" else "Break" }

/-- Embeds `PomodoroTimer.resetTimer`: pause, then restore
`timeLeft = originalTime`. -/
def resetTimer (s : TimerState) : TimerState :=
  let s1 := pauseTimer s
  { s1 with timeLeft := s1.originalTime }

/-- Embeds `PomodoroTimer.toggleTimer`: dispatch on `isRunning`. -/
def toggleTimer (s : TimerState) : TimerState :=
  if s.isRunning then pauseTimer s else startTimer s

/-! ## Display formatting (`PomodoroTimer.updateDisplay`) -/

/-- Model of JavaScript `String.prototype.padStart(n, c)`: left-pad with `c`
up to length `n`. -/
def padStart (s : String) (n : Nat) (c : Char) : String :=
  if n ≤ s.length then s else String.mk (List.replicate (n - s.length) c) ++ s

/-- Embeds the string built by `PomodoroTimer.updateDisplay` for a nonnegative
`timeLeft`: minutes `Math.floor(timeLeft / 60)`, seconds `timeLeft % 60`,
rendered as `minutes + ":" + seconds.toString().padStart(2, '0')`. -/
def formatTime (timeLeft : Nat) : String :=
  let minutes := timeLeft / 60
  let seconds := timeLeft % 60
  Nat.repr minutes ++ ":" ++ padStart (Nat.repr seconds) 2 '0'

/-- Written from the spec's words, for comparison with `formatTime`: render
minutes unpadded, a colon, then the seconds zero-padded to two digits. -/
def specClockFormat (remaining : Nat) : String :=
  Nat.repr (remaining / 60) ++ ":" ++
    (if remaining % 60 < 10 then "0" ++ Nat.repr (remaining % 60)
     else Nat.repr (remaining % 60))

/-! ### Timer lemmas -/

/-- Running `tick` never completes while more than one second remains: `k`
ticks from `d` seconds left, with `k < d`, just subtract `k`. -/
theorem tick_iterate_no_complete (k : Nat) :
    ∀ (s : TimerState) (d : Nat), s.timeLeft = (d : Int) → k < d →
      tick^[k] s = { s with timeLeft := (d : Int) - (k : Int) } := by
  induction k with
  | zero =>
    intro s d hd _
    rw [Function.iterate_zero_apply, ← hd]
    simp
  | succ k ih =>
    intro s d hd hk
    rw [Function.iterate_succ_apply]
    have hstep : tick s = { s with timeLeft := (d : Int) - 1 } := by
      have hpos : ¬ ((d : Int) - 1 ≤ 0) := by
        have : (1 : Int) < (d : Int) := by exact_mod_cast Nat.lt_of_le_of_lt (Nat.succ_le_of_lt (Nat.zero_lt_succ k)) hk
        omega
      simp [tick, hd, hpos]
    rw [hstep]
    have hk' : k < d - 1 := by omega
    have := ih { s with timeLeft := (d : Int) - 1 } (d - 1) (by push_cast; omega) hk'
    rw [this]
    congr 1
    push_cast
    omega

/-- A concrete timer state matching the constructor of `PomodoroTimer`
(30 minutes, not running, no interval scheduled). -/
def sampleTimer : TimerState :=
  { timeLeft := 1800, originalTime := 1800, isRunning := false, intervalActive := false,
    startBtnText := "Start", stateLabel := "Focus", alerts := 0 }

/-- Claim C1: for every duration d > 0 (reached as d = 60 * m for the selected preset
of m minutes), after setTime the interval is cancelled, remaining and duration
both equal d, and the timer is paused (not running). -/
theorem setTime_sets_duration_paused (d m : Nat) (s : TimerState)
    (hm : 0 < m) (hd : d = 60 * m) :
    (setTime m s).timeLeft = (d : Int) ∧ (setTime m s).originalTime = (d : Int) ∧
    (setTime m s).isRunning = false ∧ (setTime m s).intervalActive = false := by
  subst hd
  refine ⟨?_, ?_, ?_, ?_⟩ <;> simp [setTime, pauseTimer]
  · ring
  · ring

/-- Closed witness for `setTime_sets_duration_paused` at m = 45 minutes. -/
theorem setTime_sets_duration_paused_witness :
    (setTime 45 sampleTimer).timeLeft = ((2700 : Nat) : Int) ∧
    (setTime 45 sampleTimer).originalTime = ((2700 : Nat) : Int) ∧
    (setTime 45 sampleTimer).isRunning = false ∧
    (setTime 45 sampleTimer).intervalActive = false :=
  setTime_sets_duration_paused 2700 45 sampleTimer (by decide) (by decide)

/-- Claim C2: starting the timer with d seconds remaining, letting exactly k < d
ticks fire, then pausing leaves remaining = d - k with the timer paused and
the interval cancelled; and the pause itself leaves the remaining time of the
state it pauses unchanged. -/
theorem start_ticks_pause_remaining (d k : Nat) (s : TimerState)
    (hrun : s.isRunning = false) (hd : s.timeLeft = (d : Int)) (hk : k < d) :
    (pauseTimer (tick^[k] (startTimer s))).timeLeft = (d : Int) - (k : Int) ∧
    (pauseTimer (tick^[k] (startTimer s))).isRunning = false ∧
    (pauseTimer (tick^[k] (startTimer s))).intervalActive = false ∧
    ∀ u : TimerState, (pauseTimer u).timeLeft = u.timeLeft := by
  have hstart : (startTimer s).timeLeft = (d : Int) := by simp [startTimer, hrun, hd]
  have hiter := tick_iterate_no_complete k (startTimer s) d hstart hk
  rw [hiter]
  exact ⟨rfl, rfl, rfl, fun _ => rfl⟩

/-- Closed witness for `start_ticks_pause_remaining`: 2 ticks out of 1800. -/
theorem start_ticks_pause_remaining_witness :
    (pauseTimer (tick^[2] (startTimer sampleTimer))).timeLeft = ((1800 : Nat) : Int) - ((2 : Nat) : Int) ∧
    (pauseTimer (tick^[2] (startTimer sampleTimer))).isRunning = false ∧
    (pauseTimer (tick^[2] (startTimer sampleTimer))).intervalActive = false ∧
    (pauseTimer sampleTimer).timeLeft = sampleTimer.timeLeft :=
  have h := start_ticks_pause_remaining 1800 2 sampleTimer (by decide) (by decide) (by decide)
  ⟨h.1, h.2.1, h.2.2.1, h.2.2.2 sampleTimer⟩

/-- Claim C3: starting with remaining = duration = d > 0 and letting all d ticks
fire triggers exactly one completion alert, stops the interval (paused, not
running), and restores remaining = d. -/
theorem run_to_completion (d : Nat) (s : TimerState)
    (hrun : s.isRunning = false) (hd : s.timeLeft = (d : Int))
    (ho : s.originalTime = (d : Int)) (hpos : 0 < d) :
    (tick^[d] (startTimer s)).alerts = s.alerts + 1 ∧
    (tick^[d] (startTimer s)).isRunning = false ∧
    (tick^[d] (startTimer s)).intervalActive = false ∧
    (tick^[d] (startTimer s)).timeLeft = (d : Int) := by
  obtain ⟨m, rfl⟩ : ∃ m, d = m + 1 := ⟨d - 1, by omega⟩
  have hstart : (startTimer s).timeLeft = ((m + 1 : Nat) : Int) := by
    simp [startTimer, hrun, hd]
  have hiter := tick_iterate_no_complete m (startTimer s) (m + 1) hstart (by omega)
  rw [Function.iterate_succ_apply', hiter]
  have hzero : ((m + 1 : Nat) : Int) - (m : Int) - 1 ≤ 0 := by push_cast; omega
  simp only [tick, completeTimer, pauseTimer, hzero, if_pos]
  simp [startTimer, hrun, ho]

/-- A concrete paused timer state with a 3-second duration. -/
def shortTimer : TimerState :=
  { timeLeft := 3, originalTime := 3, isRunning := false, intervalActive := false,
    startBtnText := "Start", stateLabel := "Break", alerts := 0 }

/-- Closed witness for `run_to_completion` with a 3-second duration. -/
theorem run_to_completion_witness :
    (tick^[3] (startTimer shortTimer)).alerts = shortTimer.alerts + 1 ∧
    (tick^[3] (startTimer shortTimer)).isRunning = false ∧
    (tick^[3] (startTimer shortTimer)).intervalActive = false ∧
    (tick^[3] (startTimer shortTimer)).timeLeft = ((3 : Nat) : Int) :=
  run_to_completion 3 shortTimer (by decide) (by decide) (by decide) (by decide)

/-- Claim C5: the display renders floor(remaining/60) unpadded, a colon, and
remaining mod 60 zero-padded to two digits; in particular 125 renders as
2:05 and 59 renders as 0:59. -/
theorem updateDisplay_format :
    (∀ r : Nat, formatTime r = specClockFormat r) ∧
    formatTime 125 = "2:05" ∧ formatTime 59 = "0:59" := by
  refine ⟨?_, by decide, by decide⟩
  intro r
  have h60 : r % 60 < 60 := Nat.mod_lt _ (by omega)
  simp only [formatTime, specClockFormat]
  congr 1
  generalize hm : r % 60 = m at h60 ⊢
  interval_cases m <;> decide

/-! ## Keyed blob store (`class ImageStorage`)

The IndexedDB object store `images` (keyPath `id`) is embedded as a list of
records; `saveImage` models `store.add` (which rejects when a record with the
same key already exists), `getAllImages` models `store.getAll()`, and
`deleteImage` models `store.delete(id)` (which succeeds whether or not the key
is present).  `Date.now()` is passed in as the explicit argument `now`, and the
uploaded `File` is a name, a MIME type and a byte list. -/

structure ImageRecord where
  id : Nat
  name : String
  data : String
deriving Repr, DecidableEq

structure ImageFile where
  name : String
  mime : String
  bytes : List Nat
deriving Repr, DecidableEq

/-- The base64 alphabet, indexed 0..63. -/
def base64Table : List Char :=
  "ABCDEFGHIJKLMNOPQRSTUVWXYZabcdefghijklmnopqrstuvwxyz0123456789+/".data

def base64Digit (n : Nat) : Char := base64Table.getD n '='

/-- Standard base64 of a byte list, three bytes to four characters, padded
with = at the end. -/
def base64Chunks : List Nat → List Char
  | [] => []
  | [b1] =>
    [base64Digit (b1 / 4), base64Digit (b1 % 4 * 16), '=', '=']
  | [b1, b2] =>
    [base64Digit (b1 / 4), base64Digit (b1 % 4 * 16 + b2 / 16),
     base64Digit (b2 % 16 * 4), '=']
  | b1 :: b2 :: b3 :: rest =>
    base64Digit (b1 / 4) :: base64Digit (b1 % 4 * 16 + b2 / 16) ::
    base64Digit (b2 % 16 * 4 + b3 / 64) :: base64Digit (b3 % 64) ::
    base64Chunks rest

/-- Model of the browser API `FileReader.readAsDataURL` used by `saveImage`:
a data URI carrying the file's MIME type and its bytes in base64. -/
def readAsDataURL (file : ImageFile) : String :=
  "data:" ++ file.mime ++ ";base64," ++
    String.mk (base64Chunks (file.bytes.map (fun b => b % 256)))

/-- Embeds `ImageStorage.saveImage`: build the record from `Date.now()`, the
file name and the data URI, then `store.add` it.  IndexedDB `add` rejects with
a ConstraintError when the key is already present; on success `saveImage`
resolves with the stored record. -/
def saveImage (now : Nat) (file : ImageFile) (db : List ImageRecord) :
    Except String (ImageRecord × List ImageRecord) :=
  let item : ImageRecord := { id := now, name := file.name, data := readAsDataURL file }
  if db.any (fun r => r.id == now) then Except.error ("ConstraintError")
  else Except.ok (item, db ++ [item])

/-- Embeds `ImageStorage.getAllImages`: `store.getAll()` resolves with every
stored record. -/
def getAllImages (db : List ImageRecord) : List ImageRecord := db

/-- Embeds `ImageStorage.deleteImage`: `store.delete(id)` removes the record
with key `id` when present and succeeds without error when absent. -/
def deleteImage (id : Nat) (db : List ImageRecord) : List ImageRecord :=
  db.filter (fun r => r.id != id)

/-- Claim C4: when no stored record already uses the timestamp key, saveImage
resolves with the stored record r (whose name is the file's name and whose
data is the data-URI encoding of the payload), getAllImages then includes a
record with that name, and deleteImage on r's id removes that record from
getAllImages. -/
theorem saveImage_then_list_then_delete (now : Nat) (file : ImageFile)
    (db : List ImageRecord) (hfresh : ∀ r ∈ db, r.id ≠ now) :
    ∃ rec db2, saveImage now file db = Except.ok (rec, db2) ∧
      rec.name = file.name ∧ rec.data = readAsDataURL file ∧ rec.id = now ∧
      rec ∈ getAllImages db2 ∧
      (∃ r ∈ getAllImages db2, r.name = file.name) ∧
      rec ∉ getAllImages (deleteImage rec.id db2) ∧
      ∀ r ∈ getAllImages (deleteImage rec.id db2), r.id ≠ rec.id := by
  have hany : db.any (fun r => r.id == now) = false := by
    simp only [List.any_eq_false, beq_iff_eq]
    exact hfresh
  refine ⟨{ id := now, name := file.name, data := readAsDataURL file },
    db ++ [{ id := now, name := file.name, data := readAsDataURL file }],
    ?_, rfl, rfl, rfl, ?_, ?_, ?_, ?_⟩
  · simp [saveImage, hany]
  · simp [getAllImages]
  · exact ⟨{ id := now, name := file.name, data := readAsDataURL file }, by simp [getAllImages], rfl⟩
  · intro hmem
    simp only [getAllImages, deleteImage, List.mem_filter] at hmem
    simp at hmem
  · intro r hr
    simp only [getAllImages, deleteImage, List.mem_filter, bne_iff_ne] at hr
    exact hr.2

/-- A concrete uploaded file for the store witnesses. -/
def sampleFile : ImageFile := { name := "a.png", mime := "image/png", bytes := [137, 80, 78] }

/-- Closed witness for `saveImage_then_list_then_delete` on an empty store. -/
theorem saveImage_then_list_then_delete_witness :
    ∃ rec db2, saveImage 7 sampleFile [] = Except.ok (rec, db2) ∧
      rec.name = sampleFile.name ∧ rec.data = readAsDataURL sampleFile ∧ rec.id = 7 ∧
      rec ∈ getAllImages db2 ∧
      (∃ r ∈ getAllImages db2, r.name = sampleFile.name) ∧
      rec ∉ getAllImages (deleteImage rec.id db2) ∧
      ∀ r ∈ getAllImages (deleteImage rec.id db2), r.id ≠ rec.id :=
  saveImage_then_list_then_delete 7 sampleFile [] (by simp)

/-- Claim C6: deleteImage succeeds for every id: a record survives it exactly when
it was stored with a different id (so a present record is removed), and when
no stored record has the id the store is left unchanged. -/
theorem deleteImage_idempotent (id : Nat) (db : List ImageRecord) :
    (∀ r, r ∈ deleteImage id db ↔ r ∈ db ∧ r.id ≠ id) ∧
    ((∀ r ∈ db, r.id ≠ id) → deleteImage id db = db) := by
  constructor
  · intro r
    simp [deleteImage, List.mem_filter]
  · intro habs
    simp only [deleteImage]
    rw [List.filter_eq_self]
    intro r hr
    simpa using habs r hr

/-- A concrete stored record for the deletion witness. -/
def sampleRec : ImageRecord := { id := 7, name := "a.png", data := "d" }

/-- Closed witness for `deleteImage_idempotent`: deleting an absent id leaves
a one-record store unchanged, and membership is as characterized. -/
theorem deleteImage_idempotent_witness :
    (sampleRec ∈ deleteImage 3 [sampleRec] ↔ sampleRec ∈ [sampleRec] ∧ sampleRec.id ≠ 3) ∧
    deleteImage 3 [sampleRec] = [sampleRec] :=
  ⟨(deleteImage_idempotent 3 [sampleRec]).1 sampleRec,
   (deleteImage_idempotent 3 [sampleRec]).2 (by decide)⟩

/-! ## To-do list (`class TodoManager`)

A task is the object literal built in `addTask`; the manager's state is the
`tasks` array together with the localStorage slot under the fixed key
`pomodoro-tasks` (embedded as an optional stored string, `getItem` returning
null when absent). -/

structure Task where
  id : Nat
  text : String
  completed : Bool
deriving Repr, DecidableEq

/-- The code points removed by JavaScript `String.prototype.trim`: WhiteSpace
and LineTerminator code points. -/
def jsWhitespaceCodes : List Nat :=
  [9, 10, 11, 12, 13, 32, 160, 0x1680, 0x2000, 0x2001, 0x2002, 0x2003, 0x2004,
   0x2005, 0x2006, 0x2007, 0x2008, 0x2009, 0x200A, 0x2028, 0x2029, 0x202F,
   0x205F, 0x3000, 0xFEFF]

def isJsWhitespace (c : Char) : Bool := jsWhitespaceCodes.contains c.toNat

/-- Model of JavaScript `String.prototype.trim`: drop whitespace from both
ends. -/
def jsTrim (s : String) : String :=
  String.mk (((s.data.dropWhile isJsWhitespace).reverse.dropWhile isJsWhitespace).reverse)

/-- Embeds the effect of `TodoManager.addTask` on the `tasks` array: trim the
input; if the trimmed text is empty (falsy) return unchanged, otherwise
`unshift` a new uncompleted task with `id = Date.now()`. -/
def addTask (now : Nat) (input : String) (tasks : List Task) : List Task :=
  let text := jsTrim input
  if text = "" then tasks
  else { id := now, text := text, completed := false } :: tasks

/-- Embeds the effect of `TodoManager.toggleTask(id)` on the `tasks` array:
`find` the first task with that id and flip its `completed` flag in place. -/
def toggleTask (id : Nat) : List Task → List Task
  | [] => []
  | t :: ts =>
    if t.id = id then { t with completed := !t.completed } :: ts
    else t :: toggleTask id ts

/-- Embeds the effect of `TodoManager.deleteTask(id)` on the `tasks` array:
keep the tasks whose id differs (`filter (t.id !== id)`). -/
def deleteTask (id : Nat) (tasks : List Task) : List Task :=
  tasks.filter (fun t => t.id != id)

/-! ### JSON serialization of the task array

`TodoManager.save` stores `JSON.stringify(this.tasks)` and the constructor
reads it back with `JSON.parse`.  Both are browser built-ins, modelled here
concretely: the encoder emits exactly the JSON text `JSON.stringify` produces
for an array of `{id, text, completed}` objects (object fields in insertion
order, strings escaped), except that control characters other than the five
short escapes are written with a lowercase `\u00..` escape. -/

/-- The decimal digit character for n < 10 (9 for larger n). -/
def decDigitChar : Nat → Char
  | 0 => '0' | 1 => '1' | 2 => '2' | 3 => '3' | 4 => '4'
  | 5 => '5' | 6 => '6' | 7 => '7' | 8 => '8' | _ => '9'

/-- The lowercase hexadecimal digit character for n < 16 (f for larger n). -/
def hexDigitChar : Nat → Char
  | 0 => '0' | 1 => '1' | 2 => '2' | 3 => '3' | 4 => '4'
  | 5 => '5' | 6 => '6' | 7 => '7' | 8 => '8' | 9 => '9'
  | 10 => 'a' | 11 => 'b' | 12 => 'c' | 13 => 'd' | 14 => 'e' | _ => 'f'

/-- Decimal digits of n, most significant first, prepended to acc; the first
argument is recursion fuel (n itself is always enough). -/
def natDigitsGo : Nat → Nat → List Char → List Char
  | 0, _, acc => acc
  | fuel + 1, n, acc =>
    if n = 0 then acc else natDigitsGo fuel (n / 10) (decDigitChar (n % 10) :: acc)

/-- The decimal digit characters of n, as JSON.stringify writes a Nat-valued
number. -/
def natToChars (n : Nat) : List Char :=
  if n = 0 then ['0'] else natDigitsGo n n []

/-- One character of a JSON string body, escaped: quote and backslash get a
backslash escape, the five control characters b t n f r get their short
escapes, the remaining control characters a \u00.. escape, everything else
passes through. -/
def escChar (c : Char) : List Char :=
  if c = '"' then ['\\', '"']
  else if c = '\\' then ['\\', '\\']
  else if c = Char.ofNat 8 then ['\\', 'b']
  else if c = Char.ofNat 9 then ['\\', 't']
  else if c = Char.ofNat 10 then ['\\', 'n']
  else if c = Char.ofNat 12 then ['\\', 'f']
  else if c = Char.ofNat 13 then ['\\', 'r']
  else if c.toNat < 32 then
    ['\\', 'u', '0', '0', hexDigitChar (c.toNat / 16), hexDigitChar (c.toNat % 16)]
  else [c]

/-- Escape every character of a string body. -/
def escList : List Char → List Char
  | [] => []
  | c :: cs => escChar c ++ escList cs

/-- A JSON string literal: quote, escaped body, quote. -/
def encodeStrChars (s : String) : List Char :=
  '"' :: (escList s.data ++ ['"'])

def trueChars : List Char := ['t', 'r', 'u', 'e']
def falseChars : List Char := ['f', 'a', 'l', 's', 'e']

def boolChars (b : Bool) : List Char :=
  if b then trueChars else falseChars

/-- The characters of the task object from the opening brace up to the id
value, and the field separators before the text and completed values. -/
def idTail : List Char := ['"', 'i', 'd', '"', ':']
def idKey : List Char := '{' :: idTail
def textKey : List Char := [',', '"', 't', 'e', 'x', 't', '"', ':']
def completedKey : List Char := [',', '"', 'c', 'o', 'm', 'p', 'l', 'e', 't', 'e', 'd', '"', ':']

/-- The JSON object for one task, fields in the insertion order of the object
literal in `addTask`: id, text, completed. -/
def encodeTask (t : Task) : List Char :=
  idKey ++ (natToChars t.id ++ (textKey ++ (encodeStrChars t.text ++
    (completedKey ++ (boolChars t.completed ++ ['}'])))))

/-- Comma-separated continuation of a JSON array of tasks. -/
def encodeTasksSep : List Task → List Char
  | [] => []
  | t :: ts => ',' :: (encodeTask t ++ encodeTasksSep ts)

/-- The JSON array for a task list. -/
def encodeTasks : List Task → List Char
  | [] => ['[', ']']
  | t :: ts => '[' :: (encodeTask t ++ (encodeTasksSep ts ++ [']']))

/-- Model of `JSON.stringify` applied to the tasks array. -/
def stringifyTasks (ts : List Task) : String := String.mk (encodeTasks ts)

/-- The `TodoManager` state: the in-memory `tasks` array and the
`pomodoro-tasks` localStorage slot. -/
structure TodoState where
  tasks : List Task
  stored : Option String
deriving Repr, DecidableEq

/-- Embeds `TodoManager.save`: write `JSON.stringify(this.tasks)` under the
fixed key. -/
def save (st : TodoState) : TodoState :=
  { st with stored := some (stringifyTasks st.tasks) }

/-- Embeds `TodoManager.addTask` on the full state: a trimmed-empty input
returns before touching anything; otherwise unshift the new task and save. -/
def addTaskState (now : Nat) (input : String) (st : TodoState) : TodoState :=
  let text := jsTrim input
  if text = "" then st
  else save { st with tasks := { id := now, text := text, completed := false } :: st.tasks }

/-! ### To-do theorems for mutation and the whitespace no-op -/

/-- Toggling walks past a prefix that does not carry the id. -/
theorem toggleTask_append_first (id : Nat) (t : Task) (bs : List Task) :
    ∀ as : List Task, (∀ u ∈ as, u.id ≠ id) → t.id = id →
      toggleTask id (as ++ t :: bs) = as ++ { t with completed := !t.completed } :: bs := by
  intro as
  induction as with
  | nil =>
    intro _ hid
    simp [toggleTask, hid]
  | cons a as ih =>
    intro has hid
    have ha : a.id ≠ id := has a (List.mem_cons_self a as)
    have has' : ∀ u ∈ as, u.id ≠ id := fun u hu => has u (List.mem_cons_of_mem a hu)
    simp only [List.cons_append, toggleTask, if_neg ha]
    show a :: toggleTask id (as ++ t :: bs) =
      a :: (as ++ { t with completed := !t.completed } :: bs)
    rw [ih has' hid]

/-- Claim C7: on the tasks array, adding with nonempty trimmed text prepends the new
task in front of the unchanged list; toggling an id held by exactly one task
flips exactly that task's completed flag in place; deleting such an id removes
exactly that task. -/
theorem todo_add_toggle_delete (now : Nat) (input : String) (ts : List Task)
    (id : Nat) (t : Task) (as bs : List Task)
    (htrim : jsTrim input ≠ "") (hid : t.id = id)
    (has : ∀ u ∈ as, u.id ≠ id) (hbs : ∀ u ∈ bs, u.id ≠ id) :
    addTask now input ts = { id := now, text := jsTrim input, completed := false } :: ts ∧
    toggleTask id (as ++ t :: bs) = as ++ { t with completed := !t.completed } :: bs ∧
    deleteTask id (as ++ t :: bs) = as ++ bs := by
  refine ⟨?_, toggleTask_append_first id t bs as has hid, ?_⟩
  · simp [addTask, htrim]
  · have hfa : as.filter (fun u => u.id != id) = as := by
      rw [List.filter_eq_self]
      intro u hu
      simpa using has u hu
    have hfb : bs.filter (fun u => u.id != id) = bs := by
      rw [List.filter_eq_self]
      intro u hu
      simpa using hbs u hu
    simp [deleteTask, List.filter_append, List.filter_cons, hid, hfa, hfb]

/-- Concrete tasks and inputs for the to-do witnesses. -/
def taskA : Task := { id := 1, text := "water plants", completed := false }
def taskB : Task := { id := 5, text := "buy milk", completed := true }
def taskC : Task := { id := 9, text := "read", completed := false }
def inputPhrase : String := " call mom  "
def blankInput : String := "   "

/-- Closed witness for `todo_add_toggle_delete` on a three-task list. -/
theorem todo_add_toggle_delete_witness :
    addTask 12 inputPhrase [taskA] =
      { id := 12, text := jsTrim inputPhrase, completed := false } :: [taskA] ∧
    toggleTask 5 ([taskA] ++ taskB :: [taskC]) =
      [taskA] ++ { taskB with completed := !taskB.completed } :: [taskC] ∧
    deleteTask 5 ([taskA] ++ taskB :: [taskC]) = [taskA] ++ [taskC] :=
  todo_add_toggle_delete 12 inputPhrase [taskA] 5 taskB [taskA] [taskC]
    (by decide) (by decide) (by decide) (by decide)

/-- Claim C10: a whitespace-only (or empty) input makes addTask a no-op on the whole
state: the tasks array and the persisted storage slot are both unchanged. -/
theorem addTask_whitespace_noop (now : Nat) (input : String) (st : TodoState)
    (hws : ∀ c ∈ input.data, isJsWhitespace c = true) :
    addTaskState now input st = st := by
  have htrim : jsTrim input = "" := by
    have h1 : input.data.dropWhile isJsWhitespace = [] :=
      List.dropWhile_eq_nil_iff.mpr hws
    simp [jsTrim, h1]
  simp [addTaskState, htrim]

/-- A concrete to-do state for the whitespace witness. -/
def sampleTodo : TodoState := { tasks := [taskA], stored := none }

/-- Closed witness for `addTask_whitespace_noop`: a three-space input. -/
theorem addTask_whitespace_noop_witness : addTaskState 4 blankInput sampleTodo = sampleTodo :=
  addTask_whitespace_noop 4 blankInput sampleTodo (by decide)

/-! ### JSON parsing of the stored blob

Model of `JSON.parse` restricted to the grammar `JSON.stringify` emits for a
task array (the only data the to-do code ever stores): an array of objects
with the fields id (a nonnegative decimal number), text (a string with
escapes) and completed (a boolean), with no interspersed whitespace.  Parsers
consume a character list and return the value with the unconsumed rest. -/

def isDigitCh (c : Char) : Bool := 48 ≤ c.toNat && c.toNat ≤ 57

/-- Longest digit prefix and the rest. -/
def takeDigits : List Char → List Char × List Char
  | [] => ([], [])
  | c :: cs =>
    if isDigitCh c then
      let p := takeDigits cs
      (c :: p.1, p.2)
    else ([], c :: cs)

/-- Decimal value of a digit list, most significant first. -/
def digitsToNat (ds : List Char) : Nat :=
  ds.foldl (fun a c => a * 10 + (c.toNat - 48)) 0

/-- A JSON nonnegative integer: one or more digits. -/
def parseNat (cs : List Char) : Option (Nat × List Char) :=
  let p := takeDigits cs
  if p.1.isEmpty then none else some (digitsToNat p.1, p.2)

/-- Numeric value of one hexadecimal digit character. -/
def hexVal (c : Char) : Option Nat :=
  if 48 ≤ c.toNat ∧ c.toNat ≤ 57 then some (c.toNat - 48)
  else if 97 ≤ c.toNat ∧ c.toNat ≤ 102 then some (c.toNat - 87)
  else if 65 ≤ c.toNat ∧ c.toNat ≤ 70 then some (c.toNat - 55)
  else none

/-- The body of a JSON string literal after the opening quote, up to and past
the closing quote: plain characters, backslash escapes, and \u escapes. -/
def parseStrBody : List Char → Option (List Char × List Char)
  | [] => none
  | c :: cs =>
    if c = '"' then some ([], cs)
    else if c = '\\' then
      match cs with
      | [] => none
      | e :: cs2 =>
        if e = '"' then (parseStrBody cs2).map (fun p => ('"' :: p.1, p.2))
        else if e = '\\' then (parseStrBody cs2).map (fun p => ('\\' :: p.1, p.2))
        else if e = 'b' then (parseStrBody cs2).map (fun p => (Char.ofNat 8 :: p.1, p.2))
        else if e = 't' then (parseStrBody cs2).map (fun p => (Char.ofNat 9 :: p.1, p.2))
        else if e = 'n' then (parseStrBody cs2).map (fun p => (Char.ofNat 10 :: p.1, p.2))
        else if e = 'f' then (parseStrBody cs2).map (fun p => (Char.ofNat 12 :: p.1, p.2))
        else if e = 'r' then (parseStrBody cs2).map (fun p => (Char.ofNat 13 :: p.1, p.2))
        else if e = 'u' then
          match cs2 with
          | h1 :: h2 :: h3 :: h4 :: cs3 =>
            match hexVal h1, hexVal h2, hexVal h3, hexVal h4 with
            | some a, some b, some x, some y =>
              (parseStrBody cs3).map
                (fun p => (Char.ofNat (((a * 16 + b) * 16 + x) * 16 + y) :: p.1, p.2))
            | _, _, _, _ => none
          | _ => none
        else none
    else if c.toNat < 32 then none
    else (parseStrBody cs).map (fun p => (c :: p.1, p.2))

/-- A JSON string literal: opening quote then `parseStrBody`. -/
def parseJsonStr : List Char → Option (String × List Char)
  | '"' :: cs => (parseStrBody cs).map (fun p => (String.mk p.1, p.2))
  | _ => none

/-- Consume an expected literal character sequence. -/
def expectChars : List Char → List Char → Option (List Char)
  | [], rest => some rest
  | _ :: _, [] => none
  | e :: es, c :: cs => if c = e then expectChars es cs else none

/-- A JSON boolean literal. -/
def parseBool (cs : List Char) : Option (Bool × List Char) :=
  match expectChars trueChars cs with
  | some r => some (true, r)
  | none =>
    match expectChars falseChars cs with
    | some r => some (false, r)
    | none => none

/-- One task object, fields in the fixed order id, text, completed. -/
def parseTask (cs : List Char) : Option (Task × List Char) := do
  let r1 ← expectChars idKey cs
  let (id, r2) ← parseNat r1
  let r3 ← expectChars textKey r2
  let (text, r4) ← parseJsonStr r3
  let r5 ← expectChars completedKey r4
  let (completed, r6) ← parseBool r5
  let r7 ← expectChars ['}'] r6
  return ({ id := id, text := text, completed := completed }, r7)

/-- After the first array element: a closing bracket, or a comma and a further
element.  The fuel argument bounds the number of elements. -/
def parseTasksTail : Nat → List Char → Option (List Task × List Char)
  | 0, _ => none
  | _ + 1, [] => none
  | fuel + 1, c :: cs =>
    if c = ']' then some ([], cs)
    else if c = ',' then
      match parseTask cs with
      | none => none
      | some (t, r) =>
        match parseTasksTail fuel r with
        | none => none
        | some (ts, r2) => some (t :: ts, r2)
    else none

/-- A JSON array of tasks. -/
def parseTasksList (fuel : Nat) (cs : List Char) : Option (List Task × List Char) :=
  match cs with
  | '[' :: ']' :: r => some ([], r)
  | '[' :: r =>
    match parseTask r with
    | none => none
    | some (t, r2) =>
      match parseTasksTail fuel r2 with
      | none => none
      | some (ts, r3) => some (t :: ts, r3)
  | _ => none

/-- Model of `JSON.parse` on a stored task-array blob: parse the array and
require the input to be fully consumed.  The input's length is always enough
fuel, since every array element occupies at least one character. -/
def parseTasksStr (s : String) : Option (List Task) :=
  match parseTasksList (s.length + 1) s.data with
  | some (ts, []) => some ts
  | _ => none

/-- Embeds the load in the `TodoManager` constructor:
`JSON.parse(localStorage.getItem('pomodoro-tasks')) || []`.  An absent slot
gives null, which parses to null and is replaced by the empty list; a stored
blob is parsed and used as-is (no validation); a malformed blob makes
`JSON.parse` throw a SyntaxError. -/
def loadTasks (stored : Option String) : Except String (List Task) :=
  match stored with
  | none => Except.ok []
  | some s =>
    match parseTasksStr s with
    | some ts => Except.ok ts
    | none => Except.error ("SyntaxError")

/-! ### Round-trip of the decimal number encoding -/

/-- Does the input start with a decimal digit? -/
def headIsDigit : List Char → Bool
  | [] => false
  | c :: _ => isDigitCh c

/-- Decimal digits of n, most significant first, by value recursion (used
only inside proofs, to restate the fuelled `natDigitsGo`). -/
def decDigits (n : Nat) : List Char :=
  if h : n = 0 then [] else decDigits (n / 10) ++ [decDigitChar (n % 10)]
termination_by n
decreasing_by exact Nat.div_lt_self (Nat.pos_of_ne_zero h) (by norm_num)

theorem expectChars_exact : ∀ (es rest : List Char), expectChars es (es ++ rest) = some rest
  | [], _ => rfl
  | e :: es, rest => by simp [expectChars, expectChars_exact es rest]

theorem isDigitCh_decDigitChar (m : Nat) (h : m < 10) : isDigitCh (decDigitChar m) = true := by
  interval_cases m <;> decide

theorem toNat_decDigitChar (m : Nat) (h : m < 10) : (decDigitChar m).toNat - 48 = m := by
  interval_cases m <;> decide

theorem natDigitsGo_eq (k : Nat) :
    ∀ (n : Nat) (acc : List Char), n < 10 ^ k → natDigitsGo k n acc = decDigits n ++ acc := by
  induction k with
  | zero =>
    intro n acc h
    have hn : n = 0 := by omega
    subst hn
    rw [natDigitsGo, decDigits]
    simp
  | succ k ih =>
    intro n acc h
    by_cases hn : n = 0
    · subst hn
      rw [natDigitsGo, decDigits]
      simp
    · have hdiv : n / 10 < 10 ^ k := by
        rw [Nat.div_lt_iff_lt_mul (by norm_num)]
        calc n < 10 ^ (k + 1) := h
        _ = 10 ^ k * 10 := by ring
      rw [natDigitsGo, if_neg hn, ih (n / 10) _ hdiv]
      conv_rhs => rw [decDigits]
      rw [dif_neg hn]
      simp

theorem digitsToNat_append_single (xs : List Char) (c : Char) :
    digitsToNat (xs ++ [c]) = digitsToNat xs * 10 + (c.toNat - 48) := by
  simp [digitsToNat, List.foldl_append]

theorem digitsToNat_decDigits (n : Nat) : digitsToNat (decDigits n) = n := by
  induction n using Nat.strong_induction_on with
  | _ n ih =>
    by_cases hn : n = 0
    · subst hn
      rw [decDigits]
      simp [digitsToNat]
    · rw [decDigits, dif_neg hn, digitsToNat_append_single,
        ih (n / 10) (Nat.div_lt_self (Nat.pos_of_ne_zero hn) (by norm_num)),
        toNat_decDigitChar (n % 10) (Nat.mod_lt n (by norm_num))]
      omega

theorem natToChars_eq (n : Nat) : natToChars n = if n = 0 then ['0'] else decDigits n := by
  by_cases hn : n = 0
  · simp [natToChars, hn]
  · rw [natToChars, if_neg hn, if_neg hn,
      natDigitsGo_eq n n [] (Nat.lt_pow_self (by norm_num) n)]
    simp

theorem decDigits_digits (n : Nat) : ∀ c ∈ decDigits n, isDigitCh c = true := by
  induction n using Nat.strong_induction_on with
  | _ n ih =>
    by_cases hn : n = 0
    · subst hn
      rw [decDigits]
      simp
    · rw [decDigits, dif_neg hn]
      intro c hc
      rcases List.mem_append.mp hc with h | h
      · exact ih (n / 10) (Nat.div_lt_self (Nat.pos_of_ne_zero hn) (by norm_num)) c h
      · rw [List.mem_singleton.mp h]
        exact isDigitCh_decDigitChar (n % 10) (Nat.mod_lt n (by norm_num))

theorem natToChars_digits (n : Nat) : ∀ c ∈ natToChars n, isDigitCh c = true := by
  rw [natToChars_eq]
  by_cases hn : n = 0
  · simp [hn]
    decide
  · rw [if_neg hn]
    exact decDigits_digits n

theorem natToChars_ne_nil (n : Nat) : natToChars n ≠ [] := by
  rw [natToChars_eq]
  by_cases hn : n = 0
  · simp [hn]
  · rw [if_neg hn, decDigits, dif_neg hn]
    simp

theorem digitsToNat_natToChars (n : Nat) : digitsToNat (natToChars n) = n := by
  rw [natToChars_eq]
  by_cases hn : n = 0
  · simp [hn]
    decide
  · rw [if_neg hn, digitsToNat_decDigits]

theorem takeDigits_append :
    ∀ (ds rest : List Char), (∀ c ∈ ds, isDigitCh c = true) → headIsDigit rest = false →
      takeDigits (ds ++ rest) = (ds, rest)
  | [], rest => by
    intro _ hrest
    cases rest with
    | nil => rfl
    | cons c r =>
      have hc : isDigitCh c = false := hrest
      simp [takeDigits, hc]
  | d :: ds, rest => by
    intro hds hrest
    have hd : isDigitCh d = true := hds d (List.mem_cons_self d ds)
    have hds' : ∀ c ∈ ds, isDigitCh c = true := fun c hc => hds c (List.mem_cons_of_mem d hc)
    simp [takeDigits, hd, takeDigits_append ds rest hds' hrest]

theorem parseNat_encode (n : Nat) (rest : List Char) (h : headIsDigit rest = false) :
    parseNat (natToChars n ++ rest) = some (n, rest) := by
  have htake := takeDigits_append (natToChars n) rest (natToChars_digits n) h
  have hne : (natToChars n).isEmpty = false := by
    cases hts : natToChars n with
    | nil => exact absurd hts (natToChars_ne_nil n)
    | cons c cs => rfl
  simp [parseNat, htake, hne, digitsToNat_natToChars]

/-! ### Round-trip of the string escaping -/

theorem hexVal_hexDigitChar (v : Nat) (h : v < 16) : hexVal (hexDigitChar v) = some v := by
  interval_cases v <;> decide

/-- Parsing one escaped character undoes `escChar` and continues. -/
theorem parseStrBody_escChar (c : Char) (rest : List Char) :
    parseStrBody (escChar c ++ rest) = (parseStrBody rest).map (fun p => (c :: p.1, p.2)) := by
  by_cases h1 : c = '"'
  · subst h1; simp [escChar]; rw [parseStrBody.eq_def]; simp
  by_cases h2 : c = '\\'
  · subst h2; simp [escChar]; rw [parseStrBody.eq_def]; simp
  by_cases h3 : c = Char.ofNat 8
  · subst h3; simp [escChar]; rw [parseStrBody.eq_def]; simp
  by_cases h4 : c = Char.ofNat 9
  · subst h4; simp [escChar]; rw [parseStrBody.eq_def]; simp
  by_cases h5 : c = Char.ofNat 10
  · subst h5; simp [escChar]; rw [parseStrBody.eq_def]; simp
  by_cases h6 : c = Char.ofNat 12
  · subst h6; simp [escChar]; rw [parseStrBody.eq_def]; simp
  by_cases h7 : c = Char.ofNat 13
  · subst h7; simp [escChar]; rw [parseStrBody.eq_def]; simp
  by_cases h8 : c.toNat < 32
  · have h0 : hexVal '0' = some 0 := by decide
    have hdiv : c.toNat / 16 < 16 := by omega
    have hmod : c.toNat % 16 < 16 := by omega
    have harith : ((0 * 16 + 0) * 16 + c.toNat / 16) * 16 + c.toNat % 16 = c.toNat := by omega
    have harith2 : c.toNat / 16 * 16 + c.toNat % 16 = c.toNat := by omega
    simp only [escChar, if_neg h1, if_neg h2, if_neg h3, if_neg h4, if_neg h5, if_neg h6,
      if_neg h7, if_pos h8, List.cons_append, List.nil_append]
    rw [parseStrBody.eq_def]
    simp [h0, hexVal_hexDigitChar _ hdiv, hexVal_hexDigitChar _ hmod,
      harith, harith2, Char.ofNat_toNat]
  · simp only [escChar, if_neg h1, if_neg h2, if_neg h3, if_neg h4, if_neg h5, if_neg h6,
      if_neg h7, if_neg h8, List.cons_append, List.nil_append]
    rw [parseStrBody.eq_def]
    simp [h1, h2, h8]

/-- Parsing an escaped body stops exactly at the closing quote. -/
theorem parseStrBody_escList : ∀ (cs rest : List Char),
    parseStrBody (escList cs ++ ('"' :: rest)) = some (cs, rest)
  | [], rest => by
    rw [escList, List.nil_append, parseStrBody.eq_def]
    simp
  | c :: cs, rest => by
    rw [escList, List.append_assoc, parseStrBody_escChar,
      parseStrBody_escList cs rest]
    rfl

/-- Parsing a rendered string literal returns the original string. -/
theorem parseJsonStr_encode (s : String) (rest : List Char) :
    parseJsonStr (encodeStrChars s ++ rest) = some (s, rest) := by
  cases s with
  | mk data =>
    simp only [encodeStrChars, List.cons_append, List.append_assoc, List.singleton_append]
    rw [parseJsonStr.eq_def]
    simp only []
    rw [parseStrBody_escList]
    rfl

/-- Parsing a rendered boolean returns the original boolean. -/
theorem parseBool_encode (b : Bool) (rest : List Char) :
    parseBool (boolChars b ++ rest) = some (b, rest) := by
  cases b <;> simp [boolChars, parseBool, trueChars, falseChars, expectChars]

/-! ### Round-trip of tasks and task arrays -/

theorem headIsDigit_textKey (X : List Char) : headIsDigit (textKey ++ X) = false := by
  simp only [textKey, List.cons_append, headIsDigit]
  decide

/-- Parsing a rendered task object returns the original task. -/
theorem parseTask_encode (t : Task) (rest : List Char) :
    parseTask (encodeTask t ++ rest) = some (t, rest) := by
  obtain ⟨tid, ttext, tcomp⟩ := t
  have hshape : encodeTask ⟨tid, ttext, tcomp⟩ ++ rest =
      idKey ++ (natToChars tid ++ (textKey ++ (encodeStrChars ttext ++
        (completedKey ++ (boolChars tcomp ++ ('}' :: rest)))))) := by
    simp [encodeTask, List.append_assoc]
  rw [hshape]
  simp [parseTask, expectChars_exact, parseNat_encode, headIsDigit_textKey,
    parseJsonStr_encode, parseBool_encode, expectChars]

/-- Parsing a rendered array continuation returns the remaining tasks; the
fuel only needs to exceed the number of elements. -/
theorem parseTasksTail_encode : ∀ (ts : List Task) (fuel : Nat) (rest : List Char),
    ts.length < fuel →
      parseTasksTail fuel (encodeTasksSep ts ++ (']' :: rest)) = some (ts, rest)
  | [], fuel, rest => by
    intro h
    obtain ⟨f, rfl⟩ : ∃ f, fuel = f + 1 := ⟨fuel - 1, by omega⟩
    rw [encodeTasksSep, List.nil_append, parseTasksTail.eq_def]
    simp
  | t :: ts, fuel, rest => by
    intro h
    obtain ⟨f, rfl⟩ : ∃ f, fuel = f + 1 := ⟨fuel - 1, by omega⟩
    have hlen : ts.length < f := by
      simp only [List.length_cons] at h
      omega
    rw [encodeTasksSep, List.cons_append, List.append_assoc, parseTasksTail.eq_def]
    simp [parseTask_encode, parseTasksTail_encode ts f rest hlen]

/-- Reduction of the array parser when the element list is not empty. -/
theorem parseTasksList_bracket (fuel : Nat) (c : Char) (Y : List Char) (hc : c ≠ ']') :
    parseTasksList fuel ('[' :: c :: Y) =
      match parseTask (c :: Y) with
      | none => none
      | some (t, r2) =>
        match parseTasksTail fuel r2 with
        | none => none
        | some (ts, r3) => some (t :: ts, r3) := by
  rw [parseTasksList.eq_def]
  split
  · rename_i heq
    injection heq with h1 h2
    injection h2 with h3 h4
    exact absurd h3 hc
  · rename_i heq
    injection heq with h1 h2
    rw [h2]
  · rename_i hne1 hne2
    exact absurd rfl (hne2 (c :: Y))

/-- Each rendered element takes at least one character. -/
theorem encodeTasksSep_length : ∀ ts : List Task, ts.length ≤ (encodeTasksSep ts).length
  | [] => by simp [encodeTasksSep]
  | t :: ts => by
    rw [encodeTasksSep]
    simp only [List.length_cons, List.length_append]
    have := encodeTasksSep_length ts
    omega

/-- Parsing a rendered task array returns the original list. -/
theorem parseTasksList_encode (ts : List Task) (fuel : Nat) (h : ts.length ≤ fuel) :
    parseTasksList fuel (encodeTasks ts) = some (ts, []) := by
  cases ts with
  | nil =>
    rw [encodeTasks, parseTasksList.eq_def]
    simp
  | cons t ts =>
    obtain ⟨E, hE⟩ : ∃ E, encodeTask t = '{' :: E :=
      ⟨idTail ++ (natToChars t.id ++ (textKey ++ (encodeStrChars t.text ++
        (completedKey ++ (boolChars t.completed ++ ['}']))))), by simp [encodeTask, idKey]⟩
    have hlen : ts.length < fuel := by
      simp only [List.length_cons] at h
      omega
    rw [encodeTasks]
    have hsplit : encodeTask t ++ (encodeTasksSep ts ++ [']']) =
        '{' :: (E ++ (encodeTasksSep ts ++ [']'])) := by
      rw [hE]
      rfl
    rw [hsplit, parseTasksList_bracket fuel '{' _ (by decide)]
    have hback : ('{' : Char) :: (E ++ (encodeTasksSep ts ++ [']'])) =
        encodeTask t ++ (encodeTasksSep ts ++ (']' :: [])) := by
      rw [hE]
      rfl
    rw [hback]
    simp [parseTask_encode, parseTasksTail_encode ts fuel [] hlen]

/-- The whole serialize-then-parse round trip on the stored string. -/
theorem parseTasksStr_roundtrip (ts : List Task) :
    parseTasksStr (stringifyTasks ts) = some ts := by
  have hsep : ts.length ≤ (encodeTasks ts).length := by
    cases ts with
    | nil => simp [encodeTasks]
    | cons t ts =>
      rw [encodeTasks]
      simp only [List.length_cons, List.length_append]
      have := encodeTasksSep_length ts
      omega
  have hfuel : ts.length ≤ (stringifyTasks ts).length + 1 := by
    have : (stringifyTasks ts).length = (encodeTasks ts).length := rfl
    omega
  have hdata : (stringifyTasks ts).data = encodeTasks ts := rfl
  rw [parseTasksStr, hdata, parseTasksList_encode ts _ hfuel]

/-- Claim C8: saving the task list under the fixed key and loading it back yields
the original list: serialize-then-deserialize is the identity on task lists. -/
theorem save_load_roundtrip (ts : List Task) (prior : Option String) :
    loadTasks (save { tasks := ts, stored := prior }).stored = Except.ok ts := by
  simp [save, loadTasks, parseTasksStr_roundtrip]

/-- Claim C9: with nothing stored under the fixed key the to-do list initializes
empty, and whatever parses is loaded as-is, with no validation between
parsing and use. -/
theorem load_absent_default_and_unvalidated :
    loadTasks none = Except.ok ([] : List Task) ∧
    ∀ (s : String) (ts : List Task), parseTasksStr s = some ts →
      loadTasks (some s) = Except.ok ts := by
  refine ⟨rfl, ?_⟩
  intro s ts h
  simp [loadTasks, h]

/-- The stored blob of an empty task array. -/
def emptyArrayBlob : String := "[]"

/-- Closed witness for `load_absent_default_and_unvalidated`: the stored
string of an empty array loads as the empty list. -/
theorem load_absent_default_witness :
    loadTasks none = Except.ok ([] : List Task) ∧
    loadTasks (some emptyArrayBlob) = Except.ok ([] : List Task) :=
  ⟨load_absent_default_and_unvalidated.1,
   load_absent_default_and_unvalidated.2 emptyArrayBlob [] (by decide)⟩

end ZenFocus
